import Mathlib

/-!
# Verification of the `stubber` code generator

A shallow embedding of the `stubber` repository (a Go tool that generates
"stubbed" interface implementations) together with proofs that settle the
claims of the specification against it.

The repository contains several generations of the tool:

* `src/stubber.go` holds two older generations (an initial version and a
  middle generation whose `Func` model stores parameter/result names and type
  strings taken from the AST; the middle generation appears after the second
  package-clause in the file, from line 243 on);
* `src/unnamed/part_002` holds the current generation, built on
  `go/types`/`go/packages`, with the rename and duplicate-name passes and the
  `html/template` based emitter.

The embedding below follows the source: namespace `Stubber.P2` models the
current generation (`src/unnamed/part_002`), namespace `Stubber.Mid` models
the middle generation (`src/stubber.go`, lines 243-778).  Go maps are modelled
as insertion-ordered duplicate-free lists; where Go iterates over a map in
unspecified order, the model takes the enumeration order as an explicit
parameter.  Where the Go code panics, the model returns `Option`/is paired
with an explicit error value.
-/

namespace Stubber

/-- Go slice of strings, as used throughout. -/
abbrev Strs := List String

/-! ## Shared string helpers -/

/-- Model of `string(unicode.ToTitle(rune(name[0]))) + name[1:]` on a nonempty
ASCII identifier (both generations capitalize this way; `unicode.ToTitle` and
`unicode.ToUpper` agree on ASCII).  On the empty string the Go expression
panics; callers in this file model that case separately. -/
def capFirst (s : String) : String :=
  match s.data with
  | [] => ""
  | c :: cs => String.mk (c.toUpper :: cs)

/-- Model of lowering the first byte, as in
`string(unicode.ToLower(rune(f.Name[0]))) + f.Name[1:]`
(`Func.CallsName` in both generations).  Go method names are never empty, so
the `[]` case is unreachable on real inputs. -/
def lowerFirst (s : String) : String :=
  match s.data with
  | [] => ""
  | c :: cs => String.mk (c.toLower :: cs)

/-! ## `ensureNoCollision` (src/unnamed/part_002, lines 427-434)

```go
func ensureNoCollision(name string, depNames map[string]struct{}) string {
    for {
        if _, ok := depNames[name]; !ok {
            return name
        }
        name = "_" + name
    }
}
```

The loop is unfolded with explicit fuel; `deps.length + 1` steps always
suffice because each iteration strictly lengthens the name (proved below for
claim C8). -/

/-- One-step unfolding of the `ensureNoCollision` loop, with fuel. -/
def ensureNoCollisionFuel : Nat → String → Strs → String
  | 0, name, _ => name
  | fuel + 1, name, deps =>
    if name ∈ deps then ensureNoCollisionFuel fuel ("_" ++ name) deps else name

/-- Definition `ensureNoCollision`: prepend `_` until the name is not a dependency
package identifier.  Fuel `deps.length + 1` is enough (see
`ensureNoCollision_not_mem`). -/
def ensureNoCollision (name : String) (deps : Strs) : String :=
  ensureNoCollisionFuel (deps.length + 1) name deps

/-- The name with `k` underscore characters prepended. -/
def prependUnderscores : Nat → String → String
  | 0, s => s
  | k + 1, s => "_" ++ prependUnderscores k s

/-- Model of Go `strings.Join`. -/
def joinSep (sep : String) : List String → String
  | [] => ""
  | [x] => x
  | x :: xs => x ++ sep ++ joinSep sep xs

/-! ## Current generation (`src/unnamed/part_002`) -/

namespace P2

/-- Shapes of `go/types` types that the tool's dependency resolver and type
printer deal with: basic (universe) types whose `types.Object` has no package
(`error`, `int64`, `byte`, ...), named types with their defining package path
and package name, and pointer/slice/map compositions. -/
inductive GoType where
  | basic (name : String)
  | named (pkgPath pkgName name : String)
  | pointer (elem : GoType)
  | slice (elem : GoType)
  | map (key value : GoType)
deriving DecidableEq, Repr

/-- Model of `types.TypeString(t, f.Qualifier)` where `Func.Qualifier`
(src/unnamed/part_002, lines 412-414) always returns `pkg.Name()`: every named
type is printed qualified by its package name, basic universe types (whose
object has no package) are printed bare. -/
def typeString : GoType → String
  | .basic n => n
  | .named _ pkgName n => pkgName ++ "." ++ n
  | .pointer e => "*" ++ typeString e
  | .slice e => "[]" ++ typeString e
  | .map k v => "map[" ++ typeString k ++ "]" ++ typeString v

/-- Definition `indirect` (src/unnamed/part_002, lines 504-514): returns the type that
`t` points to, iterating through pointers; any non-pointer type is returned
unchanged (slice and map layers are NOT unwrapped). -/
def indirect : GoType → GoType
  | .pointer e => indirect e
  | .basic n => .basic n
  | .named p pn n => .named p pn n
  | .slice e => .slice e
  | .map k v => .map k v

/-- The `(path, pkgName)` pair that `Package.Check` records for one
parameter/result type: present exactly when `indirect` of the type is a named
type whose object has a package (src/unnamed/part_002, lines 370-386). -/
def depOf (t : GoType) : Option (String × String) :=
  match indirect t with
  | .named path pkgName _ => some (path, pkgName)
  | _ => none

/-- A type wrapped in `k` pointer layers (used to state which nestings
`indirect` can see through). -/
def iterPointer : Nat → GoType → GoType
  | 0, t => t
  | k + 1, t => GoType.pointer (iterPointer k t)

/-- Definition `publicize` (src/unnamed/part_002, lines 490-502).  Go panics on the
empty name (`"empty name found, make sure all your interface parameters have
a name!"`); the model returns `none` there.  `"db"` is special-cased to
`"DB"`; otherwise the first byte is capitalized. -/
def publicize (name : String) : Option String :=
  if name = "" then none
  else if name = "db" then some "DB"
  else some (capFirst name)

/-- One interface method as extracted from the type-checked interface:
`method.Name()` plus the `go/types` signature data used by the `Func`
methods.  Parameter names come from `Signature.Params().At(i).Name()` (empty
when unnamed in the source); for a variadic signature the last parameter's
type is already a slice.  `go/types` returns the (embedding-flattened) method
set sorted by name, so the method list order is deterministic. -/
structure MethodSig where
  name : String
  params : List (String × GoType)
  results : List (String × GoType)
  variadic : Bool
deriving DecidableEq, Repr

/-- One entry of the `findInterfaceDefs` map (src/unnamed/part_002, lines
310-328): an interface type declaration with its resolved method set. -/
structure IfaceDef where
  name : String
  methods : List MethodSig
deriving DecidableEq, Repr

/-- The per-package inputs of `Package.Check`. -/
structure PkgIn where
  pkgPath : String
  inputName : String
  outputName : String
deriving DecidableEq, Repr

/-- The interface model built by `Check` (struct `Interface`,
src/unnamed/part_002, lines 348-353 and 395-399); `ImplName()` returns
`StubName`. -/
structure Iface where
  name : String
  qualName : String
  stubName : String
  funcs : List MethodSig
deriving DecidableEq, Repr

/-- The `Package` state after `Check`: `Dependencies` and `DependencyNames`
are Go maps used as sets, modelled as insertion-ordered duplicate-free
lists. -/
structure CheckedPkg where
  pkgPath : String
  inputName : String
  outputName : String
  deps : Strs
  depNames : Strs
  ifaces : List Iface
deriving DecidableEq, Repr

/-- Insertion into a Go map used as a set. -/
def insertDep (l : Strs) (x : String) : Strs := if x ∈ l then l else l ++ [x]

/-- The `-types` filter of `Check` (src/unnamed/part_002, lines 334-346): an
interface is included when no names were requested or its name is in the
list. -/
def includeIface (ts : Strs) (name : String) : Bool :=
  ts.isEmpty || ts.contains name

/-- Methods kept for an interface: the blank-named method `_` is skipped
(src/unnamed/part_002, lines 358-360). -/
def ifaceFuncs (d : IfaceDef) : List MethodSig :=
  d.methods.filter fun m => m.name != "_"

/-- The dependency pairs recorded while walking one method: the params loop
then the results loop (src/unnamed/part_002, lines 370-386). -/
def methodDeps (m : MethodSig) : List (String × String) :=
  (m.params.flatMap fun pv => (depOf pv.2).toList)
    ++ (m.results.flatMap fun rv => (depOf rv.2).toList)

/-- Definition `Package.Check` (src/unnamed/part_002, lines 330-393).  The package's own
path is inserted into `Dependencies` first, unconditionally.  `defsEnum` is
an enumeration of the `findInterfaceDefs` map; Go ranges over that map in
unspecified order, so the enumeration order is an explicit parameter here. -/
def check (p : PkgIn) (ts : Strs) (defsEnum : List IfaceDef) : CheckedPkg :=
  let included := defsEnum.filter fun d => includeIface ts d.name
  let collected := included.flatMap fun d => (ifaceFuncs d).flatMap methodDeps
  { pkgPath := p.pkgPath
    inputName := p.inputName
    outputName := p.outputName
    deps := (collected.map Prod.fst).foldl insertDep [p.pkgPath]
    depNames := (collected.map Prod.snd).foldl insertDep []
    ifaces := included.map fun d =>
      { name := d.name
        qualName := p.inputName ++ "." ++ d.name
        stubName := d.name
        funcs := ifaceFuncs d } }

/-! ### The `Func` rendering methods (src/unnamed/part_002, lines 405-488) -/

/-- Definition `Func.StubName`. -/
def stubNameF (f : MethodSig) : String := f.name ++ "Stub"

/-- Definition `Func.CallsName` (src/unnamed/part_002, lines 420-425).  Go method names
are nonempty, so `lowerFirst` never hits its empty case here. -/
def callsName (f : MethodSig) (pub : Bool) : String :=
  if pub then f.name ++ "Calls" else lowerFirst f.name ++ "Calls"

/-- The per-parameter type text of `Func.ParamsString`: the last parameter of
a variadic signature prints as `...E` when its type is a slice. -/
def paramTypeString (variadic isLast : Bool) (t : GoType) : String :=
  if variadic && isLast then
    match t with
    | .slice e => "..." ++ typeString e
    | t' => typeString t'
  else typeString t

/-- Definition `Func.ParamsString` (src/unnamed/part_002, lines 436-450). -/
def paramsString (depNames : Strs) (f : MethodSig) : String :=
  let n := f.params.length
  "(" ++ joinSep ", " (f.params.enum.map fun ie =>
    ensureNoCollision ie.2.1 depNames ++ " "
      ++ paramTypeString f.variadic (ie.1 == n - 1) ie.2.2) ++ ")"

/-- The fields of `Func.ParamsStruct`, in order; `none` models the panic of
`publicize` on an unnamed parameter. -/
def paramsStructFields (depNames : Strs) : List (String × GoType) → Option (List String)
  | [] => some []
  | pv :: rest =>
    match publicize pv.1 with
    | none => none
    | some pn =>
      match paramsStructFields depNames rest with
      | none => none
      | some tail =>
        some ((ensureNoCollision pn depNames ++ " " ++ typeString pv.2) :: tail)

/-- Definition `Func.ParamsStruct` (src/unnamed/part_002, lines 452-461). -/
def paramsStruct (depNames : Strs) (f : MethodSig) : Option String :=
  (paramsStructFields depNames f.params).map fun parts =>
    "struct\x7b" ++ joinSep ";" parts ++ "\x7d"

/-- Definition `Func.ParamsStructValues` (src/unnamed/part_002, lines 463-471). -/
def paramsStructValues (depNames : Strs) : List (String × GoType) → Option String
  | [] => some ""
  | pv :: rest =>
    match publicize pv.1 with
    | none => none
    | some key =>
      match paramsStructValues depNames rest with
      | none => none
      | some tail =>
        some (ensureNoCollision key depNames ++ ": " ++ ensureNoCollision pv.1 depNames
          ++ "," ++ tail)

/-- Definition `Func.ParamNames` (src/unnamed/part_002, lines 473-480): the
collision-escaped parameter names joined by `", "`.  Note that, unlike the
middle generation's `ParamNames` (see `Mid.paramNames`), no `...` spread is
appended for a variadic final parameter. -/
def paramNames (depNames : Strs) (params : List (String × GoType)) : String :=
  joinSep ", " (params.map fun pv => ensureNoCollision pv.1 depNames)

/-- Definition `Func.ResultsString` (src/unnamed/part_002, lines 482-484):
`types.TypeString` applied to the results tuple.  `go/types` prints a tuple
as `(` item `, ` ... `)` — always parenthesized, for any number of results —
with each named variable printed as `name type`. -/
def resultsString (results : List (String × GoType)) : String :=
  "(" ++ joinSep ", " (results.map fun rv =>
    (if rv.1 = "" then "" else rv.1 ++ " ") ++ typeString rv.2) ++ ")"

/-- Definition `Func.HasResults`. -/
def hasResults (f : MethodSig) : Bool := !f.results.isEmpty

/-! ### The template (src/unnamed/part_002, lines 94-135)

The tool renders through `html/template`; with no markup the whole template
is HTML text context, so every interpolated value is HTML-escaped.  Literal
template text is emitted unchanged.  `{{range $pkg, $empty := .Dependencies}}`
ranges over a map, which Go templates visit in sorted key order. -/

/-- The HTML text escaper applied by `html/template` to interpolated
values. -/
def escChar (c : Char) : String :=
  if c = '&' then "&amp;"
  else if c = '<' then "&lt;"
  else if c = '>' then "&gt;"
  else if c = '"' then "&#34;"
  else if c = Char.ofNat 39 then "&#39;"
  else String.singleton c

/-- HTML-escape a whole interpolated value. -/
def esc (s : String) : String := String.join (s.data.map escChar)

/-- The sorted key order in which the template's `range` visits the
`Dependencies` map. -/
def sortedDeps (cp : CheckedPkg) : Strs := List.insertionSort (· ≤ ·) cp.deps

/-- Template output up to and including the import block (template lines
94-104): file comment, build tag, package clause and one quoted import line
per dependency. -/
def renderHeader (cp : CheckedPkg) : String :=
  "// This file was generated by stubber; DO NOT EDIT\n\n// +build !nostubs\n\t\npackage "
    ++ esc cp.outputName ++ "\n\nimport (\n\t"
    ++ String.join ((sortedDeps cp).map fun d => "\"" ++ esc d ++ "\"\n\t")
    ++ "\n)\n\n"

/-- One iteration of the struct-field loop `{{range .Funcs -}} ... {{end}}`
(template lines 108-112; the `-}}` trims the whitespace after the action). -/
def renderStructField (depNames : Strs) (f : MethodSig) : Option String :=
  (paramsStruct depNames f).map fun ps =>
    "// " ++ esc (stubNameF f) ++ " defines the implementation for " ++ esc f.name
      ++ ".\n\t" ++ esc (stubNameF f) ++ " func" ++ esc (paramsString depNames f) ++ " "
      ++ esc (resultsString f.results) ++ "\n\t"
      ++ esc (callsName f false) ++ " []" ++ esc ps ++ "\n\t"

/-- One iteration of the method loop `{{range .Funcs}} ... {{end}}` (template
lines 115-130): the delegating method (nil check, call-log append, delegating
call) and the public calls accessor. -/
def renderMethodBlock (depNames : Strs) (implName : String) (f : MethodSig) :
    Option String := do
  let ps ← paramsStruct depNames f
  let psv ← paramsStructValues depNames f.params
  pure ("\n// " ++ esc f.name ++ " delegates its behavior to the field "
    ++ esc (stubNameF f) ++ ".\nfunc (s *" ++ esc implName ++ ") " ++ esc f.name
    ++ esc (paramsString depNames f) ++ " " ++ esc (resultsString f.results)
    ++ " \x7b\n\tif s." ++ esc (stubNameF f) ++ " == nil \x7b\n\t\tpanic(\""
    ++ esc implName ++ "." ++ esc f.name ++ ": nil method stub\")\n\t\x7d\n\ts."
    ++ esc (callsName f false) ++ " = append(s." ++ esc (callsName f false) ++ ", "
    ++ esc ps ++ "\x7b " ++ esc psv ++ " \x7d)\n\t"
    ++ (if hasResults f then "return " else "") ++ "(s." ++ esc (stubNameF f) ++ ")("
    ++ esc (paramNames depNames f.params) ++ ")\n\x7d\n\n// " ++ esc (callsName f true)
    ++ " returns a slice of calls made to " ++ esc f.name
    ++ ". Each element\n// of the slice represents the parameters that were provided.\nfunc (s *"
    ++ esc implName ++ ") " ++ esc (callsName f true) ++ "() []" ++ esc ps
    ++ " \x7b\n\treturn s." ++ esc (callsName f false) ++ "\n\x7d\n")

/-- One iteration of `{{range $interface := .Interfaces}} ... {{end}}`
(template lines 105-134): doc comment, stub struct, delegating methods and
accessors, and the compile-time satisfaction assertion. -/
def renderInterfaceBlock (depNames : Strs) (i : Iface) : Option String := do
  let fields ← i.funcs.mapM (renderStructField depNames)
  let methods ← i.funcs.mapM (renderMethodBlock depNames i.stubName)
  pure ("\n// " ++ esc i.stubName ++ " is a stubbed implementation of " ++ esc i.qualName
    ++ ".\ntype " ++ esc i.stubName ++ " struct \x7b\n\t" ++ String.join fields
    ++ "\n\x7d\n\n" ++ String.join methods
    ++ "\n\n// Compile-time check that the implementation matches the interface.\nvar _ "
    ++ esc i.qualName ++ " = (*" ++ esc i.stubName ++ ")(nil)\n")

/-- Definition `t.Execute(&buf, pkg)` (src/unnamed/part_002, line 237): the whole
rendered unit.  `none` models a template-execution error (a panic inside a
template method call, e.g. `publicize` on an unnamed parameter). -/
def renderPackage (cp : CheckedPkg) : Option String := do
  let blocks ← cp.ifaces.mapM (renderInterfaceBlock cp.depNames)
  pure (renderHeader cp ++ String.join blocks ++ "\n")

/-! ### The rename and duplicate-name passes (src/unnamed/part_002, lines 204-232) -/

/-- The slice of per-package data that the rename/dedup passes touch:
`pkg.Pkg.Name` and the mutable `StubName` of each interface. -/
structure RunPkg where
  pkgName : String
  ifaces : List Iface
deriving DecidableEq, Repr

/-- Go map lookup `renames[qualName]` with the zero-value default `""`. -/
def lookupRename (renames : List (String × String)) (qual : String) : String :=
  match renames.find? (fun r => r.1 == qual) with
  | some r => r.2
  | none => ""

/-- The explicit-rename pass (lines 204-212): for each interface, look up
`pkg.Pkg.Name + "." + iface.StubName`; a nonempty entry replaces the stub
name. -/
def applyRenames (renames : List (String × String)) (pkgs : List RunPkg) : List RunPkg :=
  pkgs.map fun p =>
    { p with ifaces := p.ifaces.map fun i =>
        let newName := lookupRename renames (p.pkgName ++ "." ++ i.stubName)
        if newName != "" then { i with stubName := newName } else i }

/-- All stub names of the run, across every package. -/
def allStubNames (pkgs : List RunPkg) : Strs :=
  pkgs.flatMap fun p => p.ifaces.map fun i => i.stubName

/-- The `defs` count map of the duplicate pass (lines 214-220):
`defs[iface.StubName] += 1` over every interface of every package. -/
def stubCount (pkgs : List RunPkg) (name : String) : Nat :=
  (allStubNames pkgs).count name

/-- Definition `publicize(pkg.Pkg.Name)` as used by the dedup pass.  `publicize` panics
on the empty string; real package names are never empty, and the theorems
below never depend on the empty case, for which this total wrapper returns
`""`. -/
def publicizeD (s : String) : String := (publicize s).getD ""

/-- Processing one duplicated key `name` (lines 225-231): every interface
whose current stub name equals the key gets the capitalized owning package
name prepended. -/
def applyDedupName (pkgs : List RunPkg) (name : String) : List RunPkg :=
  pkgs.map fun p =>
    { p with ifaces := p.ifaces.map fun i =>
        if i.stubName == name then
          { i with stubName := publicizeD p.pkgName ++ i.stubName }
        else i }

/-- The duplicate-name loop (lines 221-232): the keys of `defs` whose count
exceeds one are visited in unspecified Go map order — the `order` parameter
— and each visit rewrites all currently-matching interfaces. -/
def dedupPass (order : Strs) (pkgs : List RunPkg) : List RunPkg :=
  order.foldl applyDedupName pkgs

/-- Proof-support: the state of the package list after the dedup loop has
processed the keys in `done` — every interface whose (original) stub name is
in `done` carries the package-name prefix. -/
def markDone (done : Strs) (pkgs : List RunPkg) : List RunPkg :=
  pkgs.map fun p =>
    { p with ifaces := p.ifaces.map fun i =>
        if i.stubName ∈ done then
          { i with stubName := publicizeD p.pkgName ++ i.stubName }
        else i }

/-- The whole naming pass of `Main`: explicit renames first, then the
duplicate-name pass. -/
def namingPass (renames : List (String × String)) (order : Strs)
    (pkgs : List RunPkg) : List RunPkg :=
  dedupPass order (applyRenames renames pkgs)

/-! ### The per-package emission loop of `Main` (src/unnamed/part_002, lines 234-258) -/

/-- The observable outcome of one package in `Main`: `checkOk` covers the
load/check phase (lines 196-202), which runs for every package before any
emission; the other flags are the three stages of the emission loop in
file-output mode (`out == nil`): template execution, `format.Source`, and
`ioutil.WriteFile`. -/
structure PkgRun where
  name : String
  checkOk : Bool
  renderOk : Bool
  formatOk : Bool
  writeOk : Bool
deriving DecidableEq, Repr

/-- All three emission stages succeed. -/
def pkgEmitOk (p : PkgRun) : Bool := p.renderOk && p.formatOk && p.writeOk

/-- The output file name `pkg.Pkg.Name + "_stubs.go"` (line 252). -/
def stubsFile (p : PkgRun) : String := p.name ++ "_stubs.go"

/-- The emission loop: packages in order; `log.Fatal` at the first failing
stage stops the whole process, leaving the files already written on disk.
Returns the written files and whether the run aborted. -/
def emitLoop : List PkgRun → Strs → Strs × Bool
  | [], acc => (acc, false)
  | p :: rest, acc =>
    if p.renderOk then
      if p.formatOk then
        if p.writeOk then emitLoop rest (acc ++ [stubsFile p])
        else (acc, true)
      else (acc, true)
    else (acc, true)

/-- Definition `Main` in file-output mode: every package is loaded and checked first
(any failure aborts before anything is written), then the naming passes run,
then the emission loop writes one file per package. -/
def mainRun (pkgs : List PkgRun) : Strs × Bool :=
  if pkgs.all (fun p => p.checkOk) then emitLoop pkgs [] else ([], true)

/-! ### Runtime semantics of a generated delegating method -/

/-- Runtime state of one generated stub method: the user-assignable backing
field (Go `nil` ⟷ `none`) and the hidden call log. -/
structure StubMethodState (α β : Type) where
  stub : Option (α → β)
  calls : List α

/-- Semantics of the generated delegating method body (template lines
117-123; the same shape is emitted by src/stubber.go, lines 348-354): if the
backing field is nil, panic with `"<Impl>.<Name>: nil method stub"`, leaving
the log untouched and calling nothing; otherwise append the arguments to the
log and delegate to the backing function.  The `Except` component carries the
panic message or the delegated result. -/
def invokeStub {α β : Type} (implName methName : String)
    (s : StubMethodState α β) (arg : α) :
    StubMethodState α β × Except String β :=
  match s.stub with
  | none => (s, Except.error (implName ++ "." ++ methName ++ ": nil method stub"))
  | some f => ({ s with calls := s.calls ++ [arg] }, Except.ok (f arg))

end P2

/-! ## Middle generation (`src/stubber.go`, lines 243-778) -/

namespace Mid

/-- Definition `Var` (src/stubber.go, lines 730-733): a parameter or result with its
(possibly empty) name and its already-rendered type text; a variadic final
parameter carries the `...`-prefixed type text produced by
`Package.TypeName` on an `*ast.Ellipsis`. -/
structure Var where
  name : String
  type : String
deriving DecidableEq, Repr

/-- Definition `isVariadic` (src/stubber.go, lines 776-778): models
`strings.HasPrefix(typ, "...")` by comparing the first three characters. -/
def isVariadic (typ : String) : Bool := typ.data.take 3 == ['.', '.', '.']

/-- Definition `joinVars` (src/stubber.go, lines 735-748).  When `pub` is set the name
is capitalized (`publicize`, line 771-774, which panics on an empty name —
never exercised by the theorems below); when `inStruct` is set a variadic
`...T` type renders as `[]T` (`"[]" + v.Type[3:]`). -/
def joinVars (vars : List Var) (sep : String) (pub inStruct : Bool) : String :=
  joinSep sep (vars.map fun v =>
    let name := if pub then capFirst v.name else v.name
    let typ := if inStruct && isVariadic v.type then "[]" ++ v.type.drop 3 else v.type
    name ++ " " ++ typ)

/-- Definition `Func.ParamNames` (src/stubber.go, lines 706-716): parameter names joined
by `", "`, with `...` appended to a variadic final parameter so the captured
slice is spread into the delegated call. -/
def paramNames (params : List Var) : String :=
  joinSep ", " (params.map fun v =>
    if isVariadic v.type then v.name ++ "..." else v.name)

/-- Definition `Func.HasResults` (src/stubber.go, lines 726-728). -/
def hasResults (results : List Var) : Bool := !results.isEmpty

/-- Definition `Func.ResultsString` (src/stubber.go, lines 718-724): the joined results,
wrapped in parentheses iff there is more than one result or the single
result is named. -/
def resultsString (results : List Var) : String :=
  let s := joinVars results ", " false false
  if results.length > 1 ∨ (results ≠ [] ∧ (results.headD ⟨"", ""⟩).name ≠ "") then
    "(" ++ s ++ ")"
  else s

end Mid

/-! ## Observations on rendered result lists -/

/-- The rendered text begins with `(`. -/
def startsParen (s : String) : Bool := s.data.head? == some '('

/-- The rendered text ends with `)`. -/
def endsParen (s : String) : Bool := s.data.getLast? == some ')'

/-- The rendered text is wrapped in parentheses. -/
def parenWrapped (s : String) : Bool := startsParen s && endsParen s

/-! ## Theorems: termination and set-avoidance of `ensureNoCollision` -/

theorem filter_sublist_mono {α : Type} (l : List α) {p q : α → Bool}
    (h : ∀ a, p a = true → q a = true) : List.Sublist (l.filter p) (l.filter q) := by
  induction l with
  | nil => simp
  | cons a tl ih =>
    simp only [List.filter_cons]
    by_cases hp : p a = true
    · rw [if_pos hp, if_pos (h a hp)]
      exact List.Sublist.cons₂ a ih
    · rw [if_neg hp]
      by_cases hq : q a = true
      · rw [if_pos hq]
        exact List.Sublist.cons a ih
      · rw [if_neg hq]
        exact ih

theorem length_filter_succ_lt (name : String) (l : Strs) (hmem : name ∈ l) :
    (l.filter fun d => name.length + 1 ≤ d.length).length
      < (l.filter fun d => name.length ≤ d.length).length := by
  induction l with
  | nil => cases hmem
  | cons d tl ih =>
    have hmono : ∀ a : String, (decide (name.length + 1 ≤ a.length)) = true →
        (decide (name.length ≤ a.length)) = true := by
      intro a ha
      simp only [decide_eq_true_eq] at ha ⊢
      omega
    have hle : (tl.filter fun x => name.length + 1 ≤ x.length).length
        ≤ (tl.filter fun x => name.length ≤ x.length).length :=
      List.Sublist.length_le (filter_sublist_mono tl hmono)
    simp only [List.filter_cons]
    rcases List.mem_cons.mp hmem with rfl | hmem'
    · have hq : (decide (name.length ≤ name.length)) = true := by simp
      have hp : (decide (name.length + 1 ≤ name.length)) = false := by simp
      rw [if_pos hq, if_neg (by simp [hp])]
      simp only [List.length_cons]
      omega
    · have ih' := ih hmem'
      by_cases hp : (decide (name.length + 1 ≤ d.length)) = true
      · rw [if_pos hp, if_pos (hmono d hp)]
        simp only [List.length_cons]
        omega
      · rw [if_neg hp]
        by_cases hq : (decide (name.length ≤ d.length)) = true
        · rw [if_pos hq]
          simp only [List.length_cons]
          omega
        · rw [if_neg hq]
          exact ih'

theorem length_prepend_underscore (s : String) : ("_" ++ s).length = s.length + 1 := by
  have h1 : ("_" : String).length = 1 := rfl
  rw [String.length_append, h1]
  omega

theorem ensureNoCollisionFuel_not_mem :
    ∀ (fuel : Nat) (name : String) (deps : Strs),
      (deps.filter fun d => name.length ≤ d.length).length < fuel →
      ensureNoCollisionFuel fuel name deps ∉ deps := by
  intro fuel
  induction fuel with
  | zero => intro name deps h; omega
  | succ n ih =>
    intro name deps h
    by_cases hmem : name ∈ deps
    · simp only [ensureNoCollisionFuel, hmem, if_true]
      refine ih ("_" ++ name) deps ?_
      have hlt := length_filter_succ_lt name deps hmem
      rw [length_prepend_underscore]
      omega
    · simp only [ensureNoCollisionFuel, if_neg hmem]
      exact hmem

theorem prependUnderscores_succ (k : Nat) (s : String) :
    prependUnderscores (k + 1) s = prependUnderscores k ("_" ++ s) := by
  induction k generalizing s with
  | zero => rfl
  | succ m ih =>
    show "_" ++ prependUnderscores (m + 1) s = "_" ++ prependUnderscores m ("_" ++ s)
    rw [ih]

theorem ensureNoCollisionFuel_shape :
    ∀ (fuel : Nat) (name : String) (deps : Strs),
      ∃ k, ensureNoCollisionFuel fuel name deps = prependUnderscores k name := by
  intro fuel
  induction fuel with
  | zero => intro name deps; exact ⟨0, rfl⟩
  | succ n ih =>
    intro name deps
    by_cases hmem : name ∈ deps
    · obtain ⟨k, hk⟩ := ih ("_" ++ name) deps
      refine ⟨k + 1, ?_⟩
      rw [prependUnderscores_succ]
      simp [ensureNoCollisionFuel, hmem, hk]
    · exact ⟨0, by simp [ensureNoCollisionFuel, hmem, prependUnderscores]⟩

/-- The escaped name is never a dependency identifier. -/
theorem ensureNoCollision_not_mem (name : String) (deps : Strs) :
    ensureNoCollision name deps ∉ deps := by
  refine ensureNoCollisionFuel_not_mem (deps.length + 1) name deps ?_
  have := List.length_filter_le (fun d => decide (name.length ≤ d.length)) deps
  omega

/-- Definition `ensureNoCollision` only depends on the length and the membership
predicate of the dependency-name set (used to show that the emitted text does
not depend on the enumeration order of the `DependencyNames` map). -/
theorem ensureNoCollision_congr {d₁ d₂ : Strs} (hlen : d₁.length = d₂.length)
    (hmem : ∀ x, x ∈ d₁ ↔ x ∈ d₂) (name : String) :
    ensureNoCollision name d₁ = ensureNoCollision name d₂ := by
  unfold ensureNoCollision
  rw [hlen]
  generalize d₂.length + 1 = fuel
  induction fuel generalizing name with
  | zero => rfl
  | succ n ih =>
    simp only [ensureNoCollisionFuel]
    by_cases hm : name ∈ d₁
    · rw [if_pos hm, if_pos ((hmem name).mp hm), ih]
    · rw [if_neg hm, if_neg (fun h => hm ((hmem name).mpr h))]

/-! ## Claim C8 -/

/-- C8: for every parameter identifier or call-record field name and every
finite dependency-name set, `ensureNoCollision` returns the input name with
some number of underscore characters prepended, and its result is never equal
to any dependency package identifier; the underlying loop terminates within
`|deps| + 1` iterations (the fuel with which `ensureNoCollision` runs it). -/
theorem claim_C8_collision_escape (name : String) (deps : Strs) :
    (∃ k, ensureNoCollision name deps = prependUnderscores k name)
      ∧ ensureNoCollision name deps ∉ deps :=
  ⟨ensureNoCollisionFuel_shape (deps.length + 1) name deps,
   ensureNoCollision_not_mem name deps⟩

/-! ## Claim C1 -/

/-- C1: invoking a generated delegating method whose backing function field
is unset (nil) aborts with a panic message naming the stub type and the
method (`"<Impl>.<Name>: nil method stub"`), the call log is left unchanged
(no entry appended), and the backing function is not applied — on every such
invocation, for any stub state and argument. -/
theorem claim_C1_unset_stub_aborts {α β : Type} (implName methName : String)
    (s : P2.StubMethodState α β) (arg : α) (h : s.stub = none) :
    P2.invokeStub implName methName s arg
      = (s, Except.error (implName ++ "." ++ methName ++ ": nil method stub")) := by
  unfold P2.invokeStub
  rw [h]

/-- Witness for C1: a concrete unset stub state aborts with the concrete
message. -/
theorem claim_C1_witness :
    ({ stub := none, calls := [] } : P2.StubMethodState Nat Nat).stub = none
      ∧ P2.invokeStub "StubbedAccount" "Balance"
          ({ stub := none, calls := [] } : P2.StubMethodState Nat Nat) 3
        = ({ stub := none, calls := [] },
           Except.error "StubbedAccount.Balance: nil method stub") :=
  ⟨rfl, claim_C1_unset_stub_aborts "StubbedAccount" "Balance" _ 3 rfl⟩

/-! ## Claim C5 -/

theorem publicize_eq_none_iff (name : String) : P2.publicize name = none ↔ name = "" := by
  unfold P2.publicize
  by_cases h : name = ""
  · simp [h]
  · by_cases h2 : name = "db" <;> simp [h, h2]

theorem paramsStructFields_none_iff (depNames : Strs) :
    ∀ params : List (String × P2.GoType),
      P2.paramsStructFields depNames params = none ↔ "" ∈ params.map Prod.fst := by
  intro params
  induction params with
  | nil => simp [P2.paramsStructFields]
  | cons pv rest ih =>
    cases hp : P2.publicize pv.1 with
    | none =>
      have h0 : pv.1 = "" := (publicize_eq_none_iff pv.1).mp hp
      simp only [P2.paramsStructFields, hp, List.map_cons, List.mem_cons]
      exact iff_of_true (by trivial) (Or.inl h0.symm)
    | some pn =>
      have hne : ¬ pv.1 = "" := by
        intro h0
        rw [(publicize_eq_none_iff pv.1).mpr h0] at hp
        cases hp
      cases hf : P2.paramsStructFields depNames rest with
      | none =>
        simp only [P2.paramsStructFields, hp, hf, List.map_cons, List.mem_cons]
        exact iff_of_true (by trivial) (Or.inr (ih.mp hf))
      | some tail =>
        simp only [P2.paramsStructFields, hp, hf, List.map_cons, List.mem_cons]
        constructor
        · intro h0
          cases h0
        · rintro (h0 | h0)
          · exact absurd h0.symm hne
          · rw [ih.mpr h0] at hf
            cases hf

/-- C5 (amended): the current generation synthesizes no identifier for
unnamed parameters.  Building the call-record struct type for a method with
an unnamed parameter panics inside `publicize` (`"empty name found, make
sure all your interface parameters have a name!"`) — generation fails rather
than succeeding — and it produces a field list exactly when every parameter
is named. -/
theorem claim_C5_unnamed_params_panic (depNames : Strs) (f : P2.MethodSig) :
    P2.paramsStruct depNames f = none ↔ "" ∈ f.params.map Prod.fst := by
  unfold P2.paramsStruct
  rw [Option.map_eq_none']
  exact paramsStructFields_none_iff depNames f.params

/-- C5 counterexample: for `GetUserID(*sql.DB, username string) (int64,
error)` with its first parameter unnamed, `Func.ParamsStruct` panics (`none`)
instead of producing a call-record struct with a synthesized position-derived
field name, so the claim as stated is false at this input. -/
theorem claim_C5_counterexample :
    P2.paramsStruct []
      ⟨"GetUserID",
       [("", P2.GoType.pointer (P2.GoType.named "database/sql" "sql" "DB")),
        ("username", P2.GoType.basic "string")],
       [("", P2.GoType.basic "int64"), ("", P2.GoType.basic "error")], false⟩ = none := rfl

/-! ## Claim C2 -/

/-- C2 evaluation at the failing input `Deactivate(db *sql.DB, userIds
...int64)` (src/unnamed/part_003): the current generation's
`Func.ParamsStruct` does capture the variadic parameter as a slice-typed
call-record field, but its `Func.ParamNames` renders the delegated call's
argument list as `"db, userIds"` — without the `...` spread that the middle
generation's `Func.ParamNames` emits (`"db, userIds..."`) and that Go
requires to pass a captured `[]int64` to a `...int64` parameter.  The
emitted delegating call is therefore ill-typed and the call is not forwarded
at all. -/
theorem claim_C2_variadic_forward_eval :
    P2.paramNames ["sql"]
        [("db", P2.GoType.pointer (P2.GoType.named "database/sql" "sql" "DB")),
         ("userIds", P2.GoType.slice (P2.GoType.basic "int64"))] = "db, userIds"
      ∧ Mid.paramNames [⟨"db", "*sql.DB"⟩, ⟨"userIds", "...int64"⟩] = "db, userIds..."
      ∧ P2.paramsStruct ["sql"]
          ⟨"Deactivate",
           [("db", P2.GoType.pointer (P2.GoType.named "database/sql" "sql" "DB")),
            ("userIds", P2.GoType.slice (P2.GoType.basic "int64"))], [], true⟩
          = some "struct\x7bDB *sql.DB;UserIds []int64\x7d"
      ∧ ("db, userIds" : String) ≠ "db, userIds..." := by
  refine ⟨rfl, rfl, rfl, ?_⟩
  decide

/-! ## Claim C6 -/

theorem emitLoop_spec (pkgs : List P2.PkgRun) :
    ∀ acc : Strs, P2.emitLoop pkgs acc
      = (acc ++ (pkgs.takeWhile P2.pkgEmitOk).map P2.stubsFile,
         !pkgs.all P2.pkgEmitOk) := by
  induction pkgs with
  | nil => intro acc; simp [P2.emitLoop]
  | cons p rest ih =>
    intro acc
    by_cases hr : p.renderOk = true
    · by_cases hf : p.formatOk = true
      · by_cases hw : p.writeOk = true
        · have hok : P2.pkgEmitOk p = true := by simp [P2.pkgEmitOk, hr, hf, hw]
          simp [P2.emitLoop, hr, hf, hw, ih, List.takeWhile_cons, hok, List.all_cons]
        · have hok : P2.pkgEmitOk p = false := by simp [P2.pkgEmitOk, hw]
          simp [P2.emitLoop, hr, hf, hw, List.takeWhile_cons, hok, List.all_cons]
      · have hok : P2.pkgEmitOk p = false := by simp [P2.pkgEmitOk, hf]
        simp [P2.emitLoop, hr, hf, List.takeWhile_cons, hok, List.all_cons]
    · have hok : P2.pkgEmitOk p = false := by simp [P2.pkgEmitOk, hr]
      simp [P2.emitLoop, hr, List.takeWhile_cons, hok, List.all_cons]

/-- C6 (amended): a load/check failure for any unit aborts the run before
anything is written; but the emission loop is per-unit sequential, so a
render, format, or write failure at unit `k` aborts with the files of all
units before `k` already written — exactly the successful prefix is on
disk.  Partial output is therefore possible in multi-unit runs. -/
theorem claim_C6_prefix_written (pkgs : List P2.PkgRun) :
    P2.mainRun pkgs
      = if pkgs.all (fun p => p.checkOk) then
          ((pkgs.takeWhile P2.pkgEmitOk).map P2.stubsFile, !pkgs.all P2.pkgEmitOk)
        else ([], true) := by
  unfold P2.mainRun
  by_cases h : pkgs.all (fun p => p.checkOk) = true
  · rw [if_pos h, if_pos h, emitLoop_spec]
    simp
  · rw [if_neg h, if_neg h]

/-- C6 counterexample: a two-unit run whose second unit fails formatting
aborts — but the first unit's file is already on disk, so the run did not
end with nothing written, contradicting the claim as stated. -/
theorem claim_C6_counterexample :
    P2.mainRun [⟨"bank", true, true, true, true⟩, ⟨"app", true, true, false, true⟩]
        = (["bank_stubs.go"], true)
      ∧ (["bank_stubs.go"] : Strs) ≠ ([] : Strs) := by
  refine ⟨rfl, ?_⟩
  decide

/-! ## Claim C4 -/

theorem indirect_iterPointer (k : Nat) (t : P2.GoType) :
    P2.indirect (P2.iterPointer k t) = P2.indirect t := by
  induction k with
  | zero => rfl
  | succ n ih =>
    show P2.indirect (P2.GoType.pointer (P2.iterPointer n t)) = P2.indirect t
    rw [← ih]
    rfl

/-- C4 (amended): the dependency resolver reaches a named type through any
nesting of pointer layers and records its defining package path and name,
but `indirect` does not unwrap slice or map layers: a type whose head (after
stripping pointers) is a slice or a map contributes no dependency at all. -/
theorem claim_C4_pointer_only :
    (∀ (k : Nat) (path pkgName name : String),
        P2.depOf (P2.iterPointer k (P2.GoType.named path pkgName name))
          = some (path, pkgName))
      ∧ (∀ t : P2.GoType, P2.depOf (P2.GoType.slice t) = none)
      ∧ (∀ k v : P2.GoType, P2.depOf (P2.GoType.map k v) = none) := by
  refine ⟨?_, fun t => rfl, fun k v => rfl⟩
  intro k path pkgName name
  unfold P2.depOf
  rw [indirect_iterPointer]
  rfl

/-- C4 counterexample: a method with parameter type `[]*http.Request`
(a named type under a slice layer).  `Package.Check` records neither
the import path `net/http` nor the identifier `http`, whereas the claim requires
both to be recorded. -/
theorem claim_C4_counterexample :
    "net/http" ∉ (P2.check ⟨"example.com/app", "app", "app"⟩ []
        [⟨"Frobnicator",
          [⟨"Frobnicate",
            [("rs", P2.GoType.slice (P2.GoType.pointer
                (P2.GoType.named "net/http" "http" "Request")))],
            [("", P2.GoType.slice (P2.GoType.basic "byte")),
             ("", P2.GoType.basic "error")], false⟩]⟩]).deps
      ∧ "http" ∉ (P2.check ⟨"example.com/app", "app", "app"⟩ []
        [⟨"Frobnicator",
          [⟨"Frobnicate",
            [("rs", P2.GoType.slice (P2.GoType.pointer
                (P2.GoType.named "net/http" "http" "Request")))],
            [("", P2.GoType.slice (P2.GoType.basic "byte")),
             ("", P2.GoType.basic "error")], false⟩]⟩]).depNames := by
  refine ⟨?_, ?_⟩ <;> decide

/-! ## Claim C10 -/

theorem mem_foldl_insertDep (l : Strs) (x : String) :
    ∀ acc : Strs, x ∈ l.foldl P2.insertDep acc ↔ x ∈ acc ∨ x ∈ l := by
  induction l with
  | nil => intro acc; simp
  | cons a tl ih =>
    intro acc
    rw [List.foldl_cons, ih]
    unfold P2.insertDep
    by_cases h : a ∈ acc
    · rw [if_pos h]
      simp only [List.mem_cons]
      constructor
      · rintro (hx | hx)
        · exact Or.inl hx
        · exact Or.inr (Or.inr hx)
      · rintro (hx | rfl | hx)
        · exact Or.inl hx
        · exact Or.inl h
        · exact Or.inr hx
    · rw [if_neg h]
      simp only [List.mem_append, List.mem_singleton, List.mem_cons]
      tauto

/-- C10: `Check` inserts the input package's own import path into
`Dependencies` first, unconditionally — before any interface or method is
visited and regardless of the output package name — so the emitted unit
always contains a quoted import line for the input package
itself. -/
theorem claim_C10_self_import (p : P2.PkgIn) (ts : Strs) (defsEnum : List P2.IfaceDef) :
    p.pkgPath ∈ (P2.check p ts defsEnum).deps
      ∧ ("\"" ++ P2.esc p.pkgPath ++ "\"\n\t")
          ∈ (P2.sortedDeps (P2.check p ts defsEnum)).map
              (fun d => "\"" ++ P2.esc d ++ "\"\n\t") := by
  have hdef : (P2.check p ts defsEnum).deps
      = (((defsEnum.filter fun d => P2.includeIface ts d.name).flatMap
            fun d => (P2.ifaceFuncs d).flatMap P2.methodDeps).map Prod.fst).foldl
          P2.insertDep [p.pkgPath] := rfl
  have h1 : p.pkgPath ∈ (P2.check p ts defsEnum).deps := by
    rw [hdef, mem_foldl_insertDep]
    exact Or.inl (List.mem_singleton_self _)
  refine ⟨h1, List.mem_map_of_mem _ ?_⟩
  unfold P2.sortedDeps
  exact (List.mem_insertionSort _).mpr h1

/-! ## Claim C9 -/

theorem startsParen_wrap (s : String) : startsParen ("(" ++ s) = true := rfl

theorem endsParen_wrap (s : String) : endsParen (s ++ ")") = true := by
  unfold endsParen
  rw [String.data_append, List.getLast?_concat]
  rfl

theorem parenWrapped_wrap (s : String) : parenWrapped ("(" ++ s ++ ")") = true := by
  have h1 : startsParen ("(" ++ s ++ ")") = true := by
    rw [String.append_assoc]
    exact startsParen_wrap (s ++ ")")
  have h2 : endsParen ("(" ++ s ++ ")") = true := endsParen_wrap ("(" ++ s)
  simp [parenWrapped, h1, h2]

/-- C9 (amended): the rule as claimed holds for the middle generation's
`Func.ResultsString` (src/stubber.go, lines 718-724): the rendered result
list is wrapped in parentheses exactly when there is more than one result or
the single result is named; an empty result list and a single unnamed result
render unwrapped.  (The current generation's `Func.ResultsString` instead
always parenthesizes — see the counterexample.) -/
theorem claim_C9_mid_parenthesization (results : List Mid.Var) :
    parenWrapped (Mid.resultsString results)
      = decide (results.length > 1
          ∨ (results ≠ [] ∧ (results.headD ⟨"", ""⟩).name ≠ "")) := by
  unfold Mid.resultsString
  by_cases h : results.length > 1 ∨ (results ≠ [] ∧ (results.headD ⟨"", ""⟩).name ≠ "")
  · rw [if_pos h, decide_eq_true h]
    exact parenWrapped_wrap _
  · rw [if_neg h, decide_eq_false h]
    cases results with
    | nil => rfl
    | cons v rest =>
      have hrest : rest = [] := by
        cases rest with
        | nil => rfl
        | cons w ws =>
          exact absurd (Or.inl (by simp)) h
      subst hrest
      have hname : v.name = "" := by
        by_contra hn
        exact h (Or.inr ⟨by simp, by simpa using hn⟩)
      show parenWrapped (Mid.joinVars [v] ", " false false) = false
      have hjv : Mid.joinVars [v] ", " false false = v.name ++ " " ++ v.type := rfl
      rw [hjv, hname]
      rfl

/-- C9 counterexample: the current generation's `Func.ResultsString` renders
the single unnamed result of `Balance() int` as `"(int)"` — parenthesized —
contradicting the claim that a single unnamed result renders
unparenthesized.  (The unparenthesized final text is produced only by the
separate `format.Source` pass.) -/
theorem claim_C9_counterexample :
    P2.resultsString [("", P2.GoType.basic "int")] = "(int)"
      ∧ parenWrapped (P2.resultsString [("", P2.GoType.basic "int")]) = true :=
  ⟨rfl, rfl⟩

/-! ## Claim C3 (counterexample) -/

/-- C3 counterexample: two input units that are both package `client`, each
declaring interface `Client`.  The count pass sees `Client` twice, the
rewrite prefixes `publicize("client") = "Client"` onto both occurrences, and
both stubs end up named `ClientClient`: the duplicate-name pass does NOT
make stub names unique across the output set.  (`["Client"]` is the only
enumeration of the single duplicated key.) -/
theorem claim_C3_counterexample :
    ¬ (P2.allStubNames (P2.namingPass [] ["Client"]
        [⟨"client", [⟨"Client", "client.Client", "Client", []⟩]⟩,
         ⟨"client", [⟨"Client", "client.Client", "Client", []⟩]⟩])).Nodup := by
  decide

/-! ## Claim C3 (amended theorem) -/

theorem markDone_nil (pkgs : List P2.RunPkg) : P2.markDone [] pkgs = pkgs := by
  unfold P2.markDone
  conv_rhs => rw [← List.map_id pkgs]
  apply List.map_congr_left
  intro p _
  simp

theorem applyDedupName_markDone (pkgs0 : List P2.RunPkg) (done : Strs) (n : String)
    (hdone : ∀ x ∈ done, 1 < P2.stubCount pkgs0 x)
    (hn : 1 < P2.stubCount pkgs0 n)
    (hint : ∀ p ∈ pkgs0, ∀ x, 1 < P2.stubCount pkgs0 x →
        ¬ 1 < P2.stubCount pkgs0 (P2.publicizeD p.pkgName ++ x)) :
    P2.applyDedupName (P2.markDone done pkgs0) n = P2.markDone (done ++ [n]) pkgs0 := by
  unfold P2.applyDedupName P2.markDone
  rw [List.map_map]
  apply List.map_congr_left
  intro p hp
  simp only [Function.comp]
  congr 1
  rw [List.map_map]
  apply List.map_congr_left
  intro i hi
  simp only [Function.comp]
  by_cases hd : i.stubName ∈ done
  · have hpre : P2.publicizeD p.pkgName ++ i.stubName ≠ n := by
      intro he
      exact hint p hp i.stubName (hdone _ hd) (he ▸ hn)
    rw [if_pos hd, if_pos (List.mem_append_left _ hd)]
    rw [if_neg (by simpa using hpre)]
  · rw [if_neg hd]
    by_cases he : i.stubName = n
    · rw [if_pos (by simpa using he),
        if_pos (List.mem_append_right _ (by simp [he]))]
    · rw [if_neg (by simpa using he),
        if_neg (by simp [hd, he])]

theorem dedupPass_markDone (pkgs0 : List P2.RunPkg)
    (hint : ∀ p ∈ pkgs0, ∀ x, 1 < P2.stubCount pkgs0 x →
        ¬ 1 < P2.stubCount pkgs0 (P2.publicizeD p.pkgName ++ x)) :
    ∀ (order done : Strs),
      (∀ x ∈ done, 1 < P2.stubCount pkgs0 x) →
      (∀ x ∈ order, 1 < P2.stubCount pkgs0 x) →
      P2.dedupPass order (P2.markDone done pkgs0) = P2.markDone (done ++ order) pkgs0 := by
  intro order
  induction order with
  | nil =>
    intro done h1 h2
    simp [P2.dedupPass]
  | cons n rest ih =>
    intro done h1 h2
    unfold P2.dedupPass
    rw [List.foldl_cons,
      applyDedupName_markDone pkgs0 done n h1 (h2 n (List.mem_cons_self n rest)) hint]
    have := ih (done ++ [n])
      (by
        intro x hx
        rcases List.mem_append.mp hx with hx | hx
        · exact h1 x hx
        · rw [List.mem_singleton.mp hx]
          exact h2 n (List.mem_cons_self n rest))
      (fun x hx => h2 x (List.mem_cons_of_mem _ hx))
    unfold P2.dedupPass at this
    rw [this, List.append_assoc, List.singleton_append]

/-- C3 (amended): after the explicit renames, stub names are counted across
all input units; for any enumeration order of the duplicated keys and
provided the rewrite does not interfere with another duplicated key (no
prefixed form of a duplicated name is itself a duplicated name), the pass
rewrites exactly the stub names occurring more than once, at every one of
their occurrences, by prefixing the capitalized owning package name.  This
does NOT make stub names unique across the output set (see the
counterexample: two units sharing a package name still collide). -/
theorem claim_C3_dedup_rewrite (renames : List (String × String)) (order : Strs)
    (pkgs : List P2.RunPkg)
    (hord : ∀ x, x ∈ order ↔ 1 < P2.stubCount (P2.applyRenames renames pkgs) x)
    (hint : ∀ p ∈ P2.applyRenames renames pkgs, ∀ x,
        1 < P2.stubCount (P2.applyRenames renames pkgs) x →
        ¬ 1 < P2.stubCount (P2.applyRenames renames pkgs)
            (P2.publicizeD p.pkgName ++ x)) :
    P2.namingPass renames order pkgs
      = (P2.applyRenames renames pkgs).map fun p =>
          { p with ifaces := p.ifaces.map fun i =>
              if 1 < P2.stubCount (P2.applyRenames renames pkgs) i.stubName then
                { i with stubName := P2.publicizeD p.pkgName ++ i.stubName }
              else i } := by
  unfold P2.namingPass
  conv_lhs => rw [← markDone_nil (P2.applyRenames renames pkgs)]
  rw [dedupPass_markDone (P2.applyRenames renames pkgs) hint order []
    (by intro x hx; cases hx) (fun x hx => (hord x).mp hx)]
  rw [List.nil_append]
  unfold P2.markDone
  apply List.map_congr_left
  intro p hp
  congr 1
  apply List.map_congr_left
  intro i hi
  by_cases hc : 1 < P2.stubCount (P2.applyRenames renames pkgs) i.stubName
  · rw [if_pos ((hord _).mpr hc), if_pos hc]
  · rw [if_neg (fun hm => hc ((hord _).mp hm)), if_neg hc]

/-- Witness for C3: two units `alpha` and `beta` both declaring `Client`;
the pass rewrites both occurrences, yielding `AlphaClient` and
`BetaClient`. -/
theorem claim_C3_witness :
    P2.allStubNames (P2.namingPass [] ["Client"]
        [⟨"alpha", [⟨"Client", "alpha.Client", "Client", []⟩]⟩,
         ⟨"beta", [⟨"Client", "beta.Client", "Client", []⟩]⟩])
      = ["AlphaClient", "BetaClient"] := by
  rw [claim_C3_dedup_rewrite [] ["Client"]
      [⟨"alpha", [⟨"Client", "alpha.Client", "Client", []⟩]⟩,
       ⟨"beta", [⟨"Client", "beta.Client", "Client", []⟩]⟩]
      (by
        intro x
        constructor
        · intro hx
          rw [List.mem_singleton.mp hx]
          decide
        · intro hc
          have h0 : 0 < P2.stubCount (P2.applyRenames []
              [⟨"alpha", [⟨"Client", "alpha.Client", "Client", []⟩]⟩,
               ⟨"beta", [⟨"Client", "beta.Client", "Client", []⟩]⟩]) x := by omega
          have hx' := List.count_pos_iff.mp h0
          have he : P2.allStubNames (P2.applyRenames []
              [⟨"alpha", [⟨"Client", "alpha.Client", "Client", []⟩]⟩,
               ⟨"beta", [⟨"Client", "beta.Client", "Client", []⟩]⟩])
              = ["Client", "Client"] := rfl
          rw [he] at hx'
          rcases List.mem_cons.mp hx' with h | h
          · simp [h]
          · simpa using h)
      (by
        intro p hp x hx
        have h0 : 0 < P2.stubCount (P2.applyRenames []
            [⟨"alpha", [⟨"Client", "alpha.Client", "Client", []⟩]⟩,
             ⟨"beta", [⟨"Client", "beta.Client", "Client", []⟩]⟩]) x := by omega
        have hx' := List.count_pos_iff.mp h0
        have he : P2.allStubNames (P2.applyRenames []
            [⟨"alpha", [⟨"Client", "alpha.Client", "Client", []⟩]⟩,
             ⟨"beta", [⟨"Client", "beta.Client", "Client", []⟩]⟩])
            = ["Client", "Client"] := rfl
        rw [he] at hx'
        have hxc : x = "Client" := by
          rcases List.mem_cons.mp hx' with h | h
          · exact h
          · simpa using h
        subst hxc
        fin_cases hp <;> decide)]
  decide

/-! ## Claim C7 (counterexample) -/

/-! ## Claim C7 (amended theorem) -/

theorem nodup_foldl_insertDep (l : Strs) :
    ∀ acc : Strs, acc.Nodup → (l.foldl P2.insertDep acc).Nodup := by
  induction l with
  | nil => intro acc h; simpa using h
  | cons a tl ih =>
    intro acc h
    rw [List.foldl_cons]
    apply ih
    unfold P2.insertDep
    by_cases hm : a ∈ acc
    · rwa [if_pos hm]
    · rw [if_neg hm]
      simp [List.nodup_append, h, hm]

theorem perm_foldl_insertDep {l₁ l₂ : Strs} (hmem : ∀ x, x ∈ l₁ ↔ x ∈ l₂)
    (acc : Strs) (hacc : acc.Nodup) :
    (l₁.foldl P2.insertDep acc).Perm (l₂.foldl P2.insertDep acc) := by
  rw [List.perm_ext_iff_of_nodup (nodup_foldl_insertDep l₁ acc hacc)
      (nodup_foldl_insertDep l₂ acc hacc)]
  intro x
  rw [mem_foldl_insertDep, mem_foldl_insertDep]
  exact or_congr Iff.rfl (hmem x)

theorem paramsString_congr {d₁ d₂ : Strs}
    (hens : ∀ n, ensureNoCollision n d₁ = ensureNoCollision n d₂) :
    ∀ f : P2.MethodSig, P2.paramsString d₁ f = P2.paramsString d₂ f := by
  intro f
  unfold P2.paramsString
  simp only [hens]

theorem paramsStructFields_congr {d₁ d₂ : Strs}
    (hens : ∀ n, ensureNoCollision n d₁ = ensureNoCollision n d₂) :
    ∀ ps : List (String × P2.GoType),
      P2.paramsStructFields d₁ ps = P2.paramsStructFields d₂ ps := by
  intro ps
  induction ps with
  | nil => rfl
  | cons pv rest ih =>
    unfold P2.paramsStructFields
    cases hp : P2.publicize pv.1 with
    | none => rfl
    | some pn => simp only [ih, hens]

theorem paramsStruct_congr {d₁ d₂ : Strs}
    (hens : ∀ n, ensureNoCollision n d₁ = ensureNoCollision n d₂) :
    ∀ f : P2.MethodSig, P2.paramsStruct d₁ f = P2.paramsStruct d₂ f := by
  intro f
  unfold P2.paramsStruct
  rw [paramsStructFields_congr hens]

theorem paramsStructValues_congr {d₁ d₂ : Strs}
    (hens : ∀ n, ensureNoCollision n d₁ = ensureNoCollision n d₂) :
    ∀ ps : List (String × P2.GoType),
      P2.paramsStructValues d₁ ps = P2.paramsStructValues d₂ ps := by
  intro ps
  induction ps with
  | nil => rfl
  | cons pv rest ih =>
    unfold P2.paramsStructValues
    cases hp : P2.publicize pv.1 with
    | none => rfl
    | some key => simp only [ih, hens]

theorem paramNames_congr {d₁ d₂ : Strs}
    (hens : ∀ n, ensureNoCollision n d₁ = ensureNoCollision n d₂) :
    ∀ ps : List (String × P2.GoType), P2.paramNames d₁ ps = P2.paramNames d₂ ps := by
  intro ps
  unfold P2.paramNames
  congr 1
  apply List.map_congr_left
  intro pv _
  rw [hens]

theorem renderStructField_congr {d₁ d₂ : Strs}
    (hens : ∀ n, ensureNoCollision n d₁ = ensureNoCollision n d₂) :
    ∀ f : P2.MethodSig, P2.renderStructField d₁ f = P2.renderStructField d₂ f := by
  intro f
  unfold P2.renderStructField
  rw [paramsStruct_congr hens]
  simp only [paramsString_congr hens]

theorem renderMethodBlock_congr {d₁ d₂ : Strs}
    (hens : ∀ n, ensureNoCollision n d₁ = ensureNoCollision n d₂) :
    ∀ (implName : String) (f : P2.MethodSig),
      P2.renderMethodBlock d₁ implName f = P2.renderMethodBlock d₂ implName f := by
  intro implName f
  unfold P2.renderMethodBlock
  rw [paramsStruct_congr hens]
  simp only [paramsStructValues_congr hens, paramsString_congr hens,
    paramNames_congr hens]

theorem renderInterfaceBlock_congr {d₁ d₂ : Strs}
    (hens : ∀ n, ensureNoCollision n d₁ = ensureNoCollision n d₂) :
    ∀ i : P2.Iface, P2.renderInterfaceBlock d₁ i = P2.renderInterfaceBlock d₂ i := by
  intro i
  unfold P2.renderInterfaceBlock
  have h1 : P2.renderStructField d₁ = P2.renderStructField d₂ :=
    funext (renderStructField_congr hens)
  have h2 : P2.renderMethodBlock d₁ = P2.renderMethodBlock d₂ :=
    funext fun implName => funext (renderMethodBlock_congr hens implName)
  rw [h1, h2]

/-- C7 (amended): two enumerations of the same `findInterfaceDefs` map (any
two orderings of the same interface definitions) yield identical header
and import-block text — the import `range` visits the `Dependencies` map in
sorted key order, which is enumeration-independent — and the same multiset
of rendered per-interface stub blocks; only the ORDER of the interface
blocks follows the enumeration.  Since Go's map iteration order is
unspecified and varies between executions, two executions agree on header
and imports and block multiset but not necessarily on the full output text (see
the counterexample). -/
theorem claim_C7_enum_invariants (p : P2.PkgIn) (ts : Strs)
    (d₁ d₂ : List P2.IfaceDef) (hperm : d₁.Perm d₂) :
    P2.renderHeader (P2.check p ts d₁) = P2.renderHeader (P2.check p ts d₂)
      ∧ ((P2.check p ts d₁).ifaces.map
            (P2.renderInterfaceBlock (P2.check p ts d₁).depNames)).Perm
          ((P2.check p ts d₂).ifaces.map
            (P2.renderInterfaceBlock (P2.check p ts d₂).depNames)) := by
  have hinc : (d₁.filter fun d => P2.includeIface ts d.name).Perm
      (d₂.filter fun d => P2.includeIface ts d.name) := hperm.filter _
  have hcoll : ((d₁.filter fun d => P2.includeIface ts d.name).flatMap
        fun d => (P2.ifaceFuncs d).flatMap P2.methodDeps).Perm
      ((d₂.filter fun d => P2.includeIface ts d.name).flatMap
        fun d => (P2.ifaceFuncs d).flatMap P2.methodDeps) :=
    hinc.flatMap_right _
  have hdeps : (P2.check p ts d₁).deps.Perm (P2.check p ts d₂).deps := by
    show ((((d₁.filter fun d => P2.includeIface ts d.name).flatMap
        fun d => (P2.ifaceFuncs d).flatMap P2.methodDeps).map Prod.fst).foldl
          P2.insertDep [p.pkgPath]).Perm _
    exact perm_foldl_insertDep (fun x => (hcoll.map Prod.fst).mem_iff)
      [p.pkgPath] (by simp)
  have hdn : (P2.check p ts d₁).depNames.Perm (P2.check p ts d₂).depNames := by
    show ((((d₁.filter fun d => P2.includeIface ts d.name).flatMap
        fun d => (P2.ifaceFuncs d).flatMap P2.methodDeps).map Prod.snd).foldl
          P2.insertDep []).Perm _
    exact perm_foldl_insertDep (fun x => (hcoll.map Prod.snd).mem_iff)
      [] (by simp)
  have hens : ∀ n, ensureNoCollision n (P2.check p ts d₁).depNames
      = ensureNoCollision n (P2.check p ts d₂).depNames :=
    ensureNoCollision_congr hdn.length_eq (fun x => hdn.mem_iff)
  constructor
  · have hsort : P2.sortedDeps (P2.check p ts d₁) = P2.sortedDeps (P2.check p ts d₂) :=
      List.eq_of_perm_of_sorted
        (((List.perm_insertionSort _ _).trans hdeps).trans
          (List.perm_insertionSort _ _).symm)
        (List.sorted_insertionSort _ _) (List.sorted_insertionSort _ _)
    have hout : (P2.check p ts d₁).outputName = (P2.check p ts d₂).outputName := rfl
    unfold P2.renderHeader
    rw [hsort, hout]
  · have hfun : P2.renderInterfaceBlock (P2.check p ts d₁).depNames
        = P2.renderInterfaceBlock (P2.check p ts d₂).depNames :=
      funext (renderInterfaceBlock_congr hens)
    rw [hfun]
    have hifaces : (P2.check p ts d₁).ifaces.Perm (P2.check p ts d₂).ifaces := by
      show ((d₁.filter fun d => P2.includeIface ts d.name).map _).Perm
        ((d₂.filter fun d => P2.includeIface ts d.name).map _)
      exact hinc.map _
    exact hifaces.map _

/-- Witness for C7: the two enumerations of the two-interface package agree
on the header and on the multiset of interface blocks. -/
theorem claim_C7_witness :
    P2.renderHeader (P2.check ⟨"example.com/x", "x", "stubs"⟩ []
        [⟨"A", []⟩, ⟨"BB", []⟩])
      = P2.renderHeader (P2.check ⟨"example.com/x", "x", "stubs"⟩ []
        [⟨"BB", []⟩, ⟨"A", []⟩])
    ∧ ((P2.check ⟨"example.com/x", "x", "stubs"⟩ [] [⟨"A", []⟩, ⟨"BB", []⟩]).ifaces.map
          (P2.renderInterfaceBlock
            (P2.check ⟨"example.com/x", "x", "stubs"⟩ []
              [⟨"A", []⟩, ⟨"BB", []⟩]).depNames)).Perm
        ((P2.check ⟨"example.com/x", "x", "stubs"⟩ [] [⟨"BB", []⟩, ⟨"A", []⟩]).ifaces.map
          (P2.renderInterfaceBlock
            (P2.check ⟨"example.com/x", "x", "stubs"⟩ []
              [⟨"BB", []⟩, ⟨"A", []⟩]).depNames)) :=
  claim_C7_enum_invariants ⟨"example.com/x", "x", "stubs"⟩ []
    [⟨"A", []⟩, ⟨"BB", []⟩] [⟨"BB", []⟩, ⟨"A", []⟩] (by decide)

/-- C7 counterexample: the same package checked under the two possible
enumeration orders of its two-interface `findInterfaceDefs` map renders to
different output texts — the emitted interface order follows Go's map
iteration order, which is unspecified and varies between executions, so two
executions of the generation pass need not produce identical output text. -/
theorem claim_C7_counterexample :
    P2.renderPackage (P2.check ⟨"example.com/x", "x", "stubs"⟩ []
        [⟨"A", []⟩, ⟨"BB", []⟩])
      ≠ P2.renderPackage (P2.check ⟨"example.com/x", "x", "stubs"⟩ []
        [⟨"BB", []⟩, ⟨"A", []⟩]) := by
  decide

end Stubber
